import Mathlib

/-!
Verification of the change-aware context pipeline of the `ai-cr` repository.

The definitions below are a shallow embedding of the TypeScript sources:

* `SmartContextExpander.analyzeFileChanges`, `selectOptimalStrategy`,
  `estimateTokens`, `parseDiffChunks`, `extractContextWindow`,
  `extractAffectedBlocks`, `findContainingBlock`, `extractFileHeader`,
  `findHeaderEnd` from `src/utils/parallelProcessor.ts`;
* `SmartCacheManager.get`, `set`, `hasSpace`, `makeSpace`,
  `compareEntriesForEviction`, `updateStats` from the cache module.

JavaScript numbers are modelled as `Nat`/`Int`/`ℚ` (line counts and byte
sizes are non-negative integers in the source; ratios are modelled as exact
rationals).  Effectful inputs (file content read from disk, git diff output,
`Date.now()`) are passed explicitly as arguments.  `Array.prototype.sort`
with a comparator is modelled by a stable insertion sort, and `Map` by an
insertion-ordered association list, matching JavaScript semantics.
-/

namespace AiCr

/-- JavaScript `String.prototype.split` with a single-character separator,
on the character list of a string.  Always returns at least one piece. -/
def splitChar (sep : Char) : List Char → List (List Char)
  | [] => [[]]
  | c :: cs =>
    let r := splitChar sep cs
    if c = sep then [] :: r
    else
      match r with
      | h :: t => (c :: h) :: t
      | [] => [[c]]

/-- Embeds `content.split('\n')` from the source, as a list of line strings. -/
def splitLines (s : String) : List String :=
  (splitChar '\n' s.data).map (fun l => String.mk l)

/-- JavaScript `s.startsWith(p)`. -/
def strStartsWith (s p : String) : Bool :=
  p.data.isPrefixOf s.data

/-- JavaScript whitespace class `\s` (restricted to the ASCII whitespace
characters that can occur in diff text). -/
def isJsWhitespace (c : Char) : Bool :=
  c == ' ' || c == '\t' || c == '\n' || c == '\r' || c == '\x0b' || c == '\x0c'

/-- Embeds `!diffOutput.trim()`: the string contains nothing but whitespace. -/
def isBlank (s : String) : Bool :=
  s.data.all isJsWhitespace

/-- Embeds `ContextStrategy` enum from `parallelProcessor.ts`. -/
inductive ContextStrategy where
  | diffOnly
  | contextWindow
  | affectedBlocks
  | smartSummary
  | fullFile
deriving DecidableEq, Repr

/-- The spec's budget order on strategies:
`DiffOnly < ContextWindow < AffectedBlocks < SmartSummary < FullFile`. -/
def ContextStrategy.budgetRank : ContextStrategy → Nat
  | .diffOnly => 0
  | .contextWindow => 1
  | .affectedBlocks => 2
  | .smartSummary => 3
  | .fullFile => 4

/-- Embeds `FileType` enum from `parallelProcessor.ts`. -/
inductive FileType where
  | config
  | test
  | core
  | docs
  | build
deriving DecidableEq, Repr

/-- Embeds `DiffChunk` from `parallelProcessor.ts`; chunk type of a change region. -/
inductive ChunkType where
  | addition
  | deletion
  | modification
deriving DecidableEq, Repr

/-- Embeds `DiffChunk` record.  Line fields are `Int` because the JavaScript
arithmetic (`currentLineNum - 1`, `currentLineNum - startLine`) can go
negative on degenerate hunks. -/
structure DiffChunk where
  startLine : Int
  endLine : Int
  size : Int
  type : ChunkType
deriving DecidableEq, Repr

/-- Embeds `DiffStats` record: additions/deletions counts plus parsed chunks. -/
structure DiffStats where
  additions : Nat
  deletions : Nat
  chunks : List DiffChunk
deriving Repr

/-- Embeds `ChangeAnalysis` record from `parallelProcessor.ts`. -/
structure ChangeAnalysis where
  filePath : String
  fileSize : Nat
  changeRatio : ℚ
  chunkCount : Nat
  maxChunkSize : Int
  totalChangedLines : Nat
  additions : Nat
  deletions : Nat
  isNewFile : Bool
  isDeleted : Bool
  fileType : FileType
  hasApiChanges : Bool
  strategy : ContextStrategy
  estimatedTokens : Nat
deriving Repr

/-- Embeds `SmartContextExpander.selectOptimalStrategy`, translated clause by
clause from the source. -/
def selectOptimalStrategy (analysis : ChangeAnalysis) : ContextStrategy :=
  if analysis.isDeleted then .diffOnly
  else if analysis.isNewFile ∧ analysis.fileSize < 100 then .fullFile
  else if analysis.isNewFile then .smartSummary
  else if analysis.fileSize < 20 then .fullFile
  else if analysis.fileType = .config ∧ analysis.fileSize < 50 then .fullFile
  else if analysis.changeRatio ≤ 1/10 then
    if analysis.chunkCount ≤ 2 then .diffOnly else .contextWindow
  else if analysis.changeRatio ≤ 3/10 then
    if analysis.hasApiChanges then .affectedBlocks else .contextWindow
  else if analysis.changeRatio ≤ 7/10 then
    if analysis.fileSize > 100 then .smartSummary else .affectedBlocks
  else if analysis.fileSize < 150 then .fullFile
  else .smartSummary

/-- The ordered, first-match-wins decision table exactly as the spec words
it (§4.3), written independently of `selectOptimalStrategy` for the
refinement comparison. -/
def specStrategyTable (a : ChangeAnalysis) : ContextStrategy :=
  if a.isDeleted then .diffOnly
  else if a.isNewFile then
    (if a.fileSize < 100 then .fullFile else .smartSummary)
  else if a.fileSize < 20 then .fullFile
  else if a.fileType = .config ∧ a.fileSize < 50 then .fullFile
  else if a.changeRatio ≤ 1/10 then
    (if a.chunkCount ≤ 2 then .diffOnly else .contextWindow)
  else if a.changeRatio ≤ 3/10 then
    (if a.hasApiChanges then .affectedBlocks else .contextWindow)
  else if a.changeRatio ≤ 7/10 then
    (if a.fileSize > 100 then .smartSummary else .affectedBlocks)
  else if a.fileSize < 150 then .fullFile
  else .smartSummary

/-- Embeds `SmartContextExpander.estimateTokens`. -/
def estimateTokens (maxTokensPerFile : Nat) (analysis : ChangeAnalysis) : Nat :=
  match analysis.strategy with
  | .diffOnly => 500
  | .contextWindow => 1000
  | .affectedBlocks => 2000
  | .smartSummary => 3000
  | .fullFile => min (analysis.fileSize * 8) maxTokensPerFile

/-- Embeds `Math.max(...chunks.map(c => c.size))` guarded by emptiness, from
`analyzeFileChanges`. -/
def maxChunkSizeOf (chunks : List DiffChunk) : Int :=
  match chunks.map (fun c => c.size) with
  | [] => 0
  | s :: rest => rest.foldl max s

/-- Embeds `diffStats.deletions === 0 && diffStats.additions === fileSize` from
`analyzeFileChanges`. -/
def isNewFileOf (fileSize additions deletions : Nat) : Bool :=
  deletions == 0 && additions == fileSize

/-- Embeds `diffStats.additions === 0 && diffStats.deletions > 0` from
`analyzeFileChanges`. -/
def isDeletedOf (additions deletions : Nat) : Bool :=
  additions == 0 && decide (deletions > 0)

/-- Embeds `actualChangedLines` from `analyzeFileChanges`. -/
def actualChangedLinesOf (fileSize additions deletions : Nat) : Nat :=
  if isNewFileOf fileSize additions deletions then fileSize
  else if isDeletedOf additions deletions then deletions
  else additions + deletions

/-- Embeds `changeRatio` from `analyzeFileChanges`: `1.0` for new and deleted
files, otherwise `baseSize > 0 ? actualChangedLines / baseSize : 0` with
`baseSize = fileSize + Math.max(0, deletions - additions)`. -/
def changeRatioOf (fileSize additions deletions : Nat) : ℚ :=
  if isNewFileOf fileSize additions deletions then 1
  else if isDeletedOf additions deletions then 1
  else
    -- Nat subtraction `deletions - additions` is `Math.max(0, deletions - additions)`
    let baseSize := fileSize + (deletions - additions)
    if baseSize > 0 then ((additions + deletions : Nat) : ℚ) / (baseSize : ℚ) else 0

/-- Embeds `SmartContextExpander.analyzeFileChanges`, with the effectful inputs
(file content, `getDiffStats` result, `detectFileType` result,
`detectApiChanges` result, config ceiling) passed explicitly.  The cache
check at the top of the source method is the memoization wrapper and is
not part of the computed analysis. -/
def analyzeFileChanges (filePath : String) (fileContent : String)
    (diffStats : DiffStats) (fileType : FileType) (hasApiChanges : Bool)
    (maxTokensPerFile : Nat) : ChangeAnalysis :=
  let fileSize := (splitLines fileContent).length
  let isNewFile := isNewFileOf fileSize diffStats.additions diffStats.deletions
  let isDeleted := isDeletedOf diffStats.additions diffStats.deletions
  let actualChangedLines := actualChangedLinesOf fileSize diffStats.additions diffStats.deletions
  let changeRatio := changeRatioOf fileSize diffStats.additions diffStats.deletions
  let analysis : ChangeAnalysis :=
    { filePath := filePath
      fileSize := fileSize
      changeRatio := changeRatio
      chunkCount := diffStats.chunks.length
      maxChunkSize := maxChunkSizeOf diffStats.chunks
      totalChangedLines := actualChangedLines
      additions := diffStats.additions
      deletions := diffStats.deletions
      isNewFile := isNewFile
      isDeleted := isDeleted
      fileType := fileType
      hasApiChanges := hasApiChanges
      strategy := .fullFile
      estimatedTokens := 0 }
  let analysis := { analysis with strategy := selectOptimalStrategy analysis }
  { analysis with estimatedTokens := estimateTokens maxTokensPerFile analysis }

/-- The modified-file change-ratio formula exactly as the spec words it:
`(added+deleted) / max(file_line_count + max(0, deleted-added), 1)`. -/
def specModifiedChangeRatio (fileLineCount added deleted : Nat) : ℚ :=
  ((added : ℚ) + (deleted : ℚ)) /
    max ((fileLineCount : ℚ) + max ((deleted : ℚ) - (added : ℚ)) 0) 1

/-- A concrete modified-file analysis used to witness strategy
monotonicity. -/
def monotonicityProbe (r : ℚ) : ChangeAnalysis :=
  { filePath := "a.ts", fileSize := 200, changeRatio := r,
    chunkCount := 1, maxChunkSize := 1, totalChangedLines := 10, additions := 10,
    deletions := 0, isNewFile := false, isDeleted := false, fileType := .core,
    hasApiChanges := false, strategy := .fullFile, estimatedTokens := 0 }

/-- Consume one expected character. -/
def expectChar (c : Char) : List Char → Option (List Char)
  | x :: xs => if x = c then some xs else none
  | [] => none

/-- Accumulate the value of a maximal digit run (the tail of `\d+`). -/
def takeDigitsAux (acc : Nat) : List Char → Nat × List Char
  | c :: cs =>
    if c.isDigit then takeDigitsAux (acc * 10 + (c.toNat - 48)) cs else (acc, c :: cs)
  | [] => (acc, [])

/-- Embeds `\d+` followed by `parseInt`: one or more digits, greedily. -/
def takeDigits : List Char → Option (Nat × List Char)
  | c :: cs => if c.isDigit then some (takeDigitsAux (c.toNat - 48) cs) else none
  | [] => none

/-- Embeds `\s+`: one or more whitespace characters, greedily. -/
def skipWs1 (l : List Char) : Option (List Char) :=
  match l with
  | c :: cs => if isJsWhitespace c then some (cs.dropWhile isJsWhitespace) else none
  | [] => none

/-- Embeds `,?\d*` after a greedy `\d+`: an optional comma followed by digits. -/
def skipCommaDigits (l : List Char) : List Char :=
  match l with
  | ',' :: cs => cs.dropWhile Char.isDigit
  | _ => l

/-- The hunk-header regex `^@@\s+-(\d+),?\d*\s+\+(\d+),?\d*\s+@@` from
`parseDiffChunks`; returns the second capture (`parseInt` of the
new-file start line) when the line matches. -/
def parseHunkHeader (line : String) : Option Nat := do
  let r ← expectChar '@' line.data
  let r ← expectChar '@' r
  let r ← skipWs1 r
  let r ← expectChar '-' r
  let (_, r) ← takeDigits r
  let r := skipCommaDigits r
  let r ← skipWs1 r
  let r ← expectChar '+' r
  let (c, r) ← takeDigits r
  let r := skipCommaDigits r
  let r ← skipWs1 r
  let r ← expectChar '@' r
  let _ ← expectChar '@' r
  pure c

/-- The loop state of `parseDiffChunks`: accumulated chunks, the current
chunk (`startLine`, running `type`) when one is open, and
`currentLineNum`. -/
structure ParseState where
  chunks : List DiffChunk
  current : Option (Nat × ChunkType)
  lineNum : Nat
deriving Repr

/-- Flushing the open chunk when a new hunk header is met:
`endLine = currentLineNum - 1`, `size = currentLineNum - startLine`. -/
def flushChunk (st : ParseState) : List DiffChunk :=
  match st.current with
  | some (s, t) =>
    st.chunks ++ [⟨(s : Int), (st.lineNum : Int) - 1, (st.lineNum : Int) - (s : Int), t⟩]
  | none => st.chunks

/-- One iteration of the `for (const line of lines)` loop of
`parseDiffChunks`. -/
def processDiffLine (st : ParseState) (line : String) : ParseState :=
  match parseHunkHeader line with
  | some c => { chunks := flushChunk st, current := some (c, .modification), lineNum := c }
  | none =>
    if strStartsWith line "diff " || strStartsWith line "index " ||
        strStartsWith line "---" || strStartsWith line "+++" then st
    else
      match st.current with
      | none => st
      | some (s, t) =>
        if strStartsWith line "+" && !strStartsWith line "+++" then
          { st with current := some (s, .addition), lineNum := st.lineNum + 1 }
        else if strStartsWith line "-" && !strStartsWith line "---" then
          { st with current := some (s, if t = .addition then .modification else .deletion) }
        else if strStartsWith line " " || line == "" then
          { st with lineNum := st.lineNum + 1 }
        else st

/-- Embeds `SmartContextExpander.parseDiffChunks`, with the `git diff` output
passed explicitly.  The trailing chunk is flushed with
`endLine = currentLineNum`, `size = currentLineNum - startLine + 1`. -/
def parseDiffChunks (diffOutput : String) : List DiffChunk :=
  if isBlank diffOutput then []
  else
    let lines := splitLines diffOutput
    let st := lines.foldl processDiffLine { chunks := [], current := none, lineNum := 0 }
    match st.current with
    | some (s, t) =>
      st.chunks ++ [⟨(s : Int), (st.lineNum : Int), (st.lineNum : Int) - (s : Int) + 1, t⟩]
    | none => st.chunks

/-- Embeds `'lru' | 'lfu' | 'ttl'` from `CacheConfig.strategy`. -/
inductive CacheStrategy where
  | lru
  | lfu
  | ttl
deriving DecidableEq, Repr

/-- The fields of `CacheConfig` that the in-memory `get`/`set`/eviction
logic reads.  The remaining fields (`rootDir`, `cleanupInterval`,
`compressionEnabled`, `warmupOnStart`, `persistToDisk`, `backupInterval`)
only drive disk persistence and timers. -/
structure CacheConfig where
  enabled : Bool
  maxSize : Nat
  maxEntries : Nat
  defaultTTL : Nat
  strategy : CacheStrategy
deriving Repr

/-- Embeds `CacheEntry.metadata`. -/
structure EntryMetadata where
  fileSize : Nat
  filePath : String
  version : String
  tags : List String
deriving DecidableEq, Repr

/-- Embeds `CacheEntry<T>` from the cache module.  Timestamps are `Date.now()`
milliseconds; `ttl` is in seconds. -/
structure CacheEntry (V : Type) where
  key : String
  value : V
  hash : String
  timestamp : Nat
  lastAccessed : Nat
  accessCount : Nat
  ttl : Nat
  size : Nat
  metadata : EntryMetadata
deriving Repr

/-- Embeds `CacheStats`.  `hitRate` is a percentage, kept as an exact rational. -/
structure CacheStats where
  hits : Nat
  misses : Nat
  hitRate : ℚ
  totalSize : Nat
  entryCount : Nat
  oldestEntry : Nat
  newestEntry : Nat
  topKeys : List String
  memoryUsage : Nat
deriving Repr

/-- The mutable state of a `SmartCacheManager`: config, the insertion-
ordered `memoryCache` map, and the running stats. -/
structure CacheState (V : Type) where
  config : CacheConfig
  entries : List (String × CacheEntry V)
  stats : CacheStats
deriving Repr

/-- JavaScript `Map.prototype.get`. -/
def mapGet {V : Type} (m : List (String × CacheEntry V)) (k : String) :
    Option (CacheEntry V) :=
  match m.find? (fun p => p.1 == k) with
  | some p => some p.2
  | none => none

/-- JavaScript `Map.prototype.set`: replaces in place when the key is
present (keeping its insertion position), appends otherwise. -/
def mapSet {V : Type} (m : List (String × CacheEntry V)) (k : String)
    (v : CacheEntry V) : List (String × CacheEntry V) :=
  match m with
  | [] => [(k, v)]
  | p :: rest => if p.1 = k then (k, v) :: rest else p :: mapSet rest k v

/-- JavaScript `Map.prototype.delete` (a `Map` holds at most one entry per
key). -/
def mapDelete {V : Type} (m : List (String × CacheEntry V)) (k : String) :
    List (String × CacheEntry V) :=
  match m with
  | [] => []
  | p :: rest => if p.1 = k then rest else p :: mapDelete rest k

/-- A JavaScript stable comparator sort (`Array.prototype.sort`),
modelled as a stable insertion sort: an element is placed before the
first element it compares strictly below, so equal elements keep their
original relative order. -/
def insertCmp {α : Type} (cmp : α → α → Int) (a : α) : List α → List α
  | [] => [a]
  | b :: bs => if cmp a b ≤ 0 then a :: b :: bs else b :: insertCmp cmp a bs

/-- See `insertCmp`. -/
def sortCmp {α : Type} (cmp : α → α → Int) : List α → List α
  | [] => []
  | a :: as => insertCmp cmp a (sortCmp cmp as)

/-- Total size in bytes of the stored entries. -/
def sumSizes {V : Type} (m : List (String × CacheEntry V)) : Nat :=
  (m.map (fun p => p.2.size)).sum

/-- Embeds `updateTopKeys`: the ten most-accessed keys. -/
def updateTopKeys {V : Type} (m : List (String × CacheEntry V)) : List String :=
  ((sortCmp (fun a b => ((b : String × CacheEntry V).2.accessCount : Int) - a.2.accessCount) m).take
    10).map (fun p => p.1)

/-- Embeds `updateStats`: recompute `entryCount`, `hitRate`, `totalSize`,
`oldestEntry`, `newestEntry` (initialised with `Date.now()` and `0`) and
`topKeys` from the stored entries. -/
def updateStats {V : Type} (now : Nat) (st : CacheState V) : CacheState V :=
  let hitRate : ℚ :=
    if st.stats.hits + st.stats.misses > 0 then
      ((st.stats.hits : ℚ) / ((st.stats.hits : ℚ) + (st.stats.misses : ℚ))) * 100
    else 0
  let oldest := st.entries.foldl
    (fun acc p => if p.2.timestamp < acc then p.2.timestamp else acc) now
  let newest := st.entries.foldl
    (fun acc p => if p.2.timestamp > acc then p.2.timestamp else acc) 0
  { st with stats :=
    { st.stats with
      entryCount := st.entries.length
      hitRate := hitRate
      totalSize := sumSizes st.entries
      oldestEntry := oldest
      newestEntry := newest
      topKeys := updateTopKeys st.entries } }

/-- Embeds `isExpired`: `Date.now() > timestamp + ttl * 1000`. -/
def isExpired {V : Type} (now : Nat) (e : CacheEntry V) : Bool :=
  decide (now > e.timestamp + e.ttl * 1000)

/-- Embeds `hasSpace`. -/
def hasSpace {V : Type} (st : CacheState V) (requiredSize : Nat) : Bool :=
  decide (st.stats.totalSize + requiredSize ≤ st.config.maxSize * 1024 * 1024) &&
    decide (st.stats.entryCount < st.config.maxEntries)

/-- Embeds `compareEntriesForEviction`.  Note the `ttl` branch adds `ttl`
(seconds) directly to `timestamp` (milliseconds), as the source does. -/
def compareEntriesForEviction {V : Type} (strategy : CacheStrategy)
    (a b : CacheEntry V) : Int :=
  match strategy with
  | .lru => (a.lastAccessed : Int) - (b.lastAccessed : Int)
  | .lfu => (a.accessCount : Int) - (b.accessCount : Int)
  | .ttl => ((a.timestamp : Int) + (a.ttl : Int)) - ((b.timestamp : Int) + (b.ttl : Int))

/-- The eviction loop of `makeSpace`: walk the sorted candidates, and as
long as `totalSize - freedSize > targetSize` evict the next one.  Returns
the evicted `(key, entry)` pairs; `remaining` is
`stats.totalSize - freedSize`. -/
def evictList {V : Type} (target : ℚ) :
    ℚ → List (String × CacheEntry V) → List (String × CacheEntry V)
  | _, [] => []
  | remaining, p :: rest =>
    if remaining ≤ target then []
    else p :: evictList target (remaining - (p.2.size : ℚ)) rest

/-- Embeds `makeSpace`: sort the entries by the eviction comparator, evict until
the remaining size is at most `maxSizeBytes * 0.8`, then refresh stats.
The `requiredSize` argument is unused, as in the source
(`_requiredSize`). -/
def makeSpace {V : Type} (now : Nat) (st : CacheState V) (_requiredSize : Nat) :
    CacheState V :=
  let maxSizeBytes := st.config.maxSize * 1024 * 1024
  let targetSize : ℚ := (maxSizeBytes : ℚ) * (8 / 10)
  let sorted := sortCmp
    (fun a b => compareEntriesForEviction st.config.strategy
      (a : String × CacheEntry V).2 b.2) st.entries
  let evicted := evictList targetSize (st.stats.totalSize : ℚ) sorted
  let entries := evicted.foldl (fun es p => mapDelete es p.1) st.entries
  updateStats now { st with entries := entries }

/-- Embeds `get`: miss on absence, lazy expiry (delete + miss), otherwise bump
`lastAccessed`/`accessCount` in place and record a hit. -/
def cacheGet {V : Type} (st : CacheState V) (now : Nat) (key : String) :
    Option V × CacheState V :=
  if st.config.enabled = false then (none, st)
  else
    match mapGet st.entries key with
    | none =>
      (none, { st with stats := { st.stats with misses := st.stats.misses + 1 } })
    | some entry =>
      if isExpired now entry then
        let st1 := updateStats now { st with entries := mapDelete st.entries key }
        (none, { st1 with stats := { st1.stats with misses := st1.stats.misses + 1 } })
      else
        let entry1 := { entry with lastAccessed := now, accessCount := entry.accessCount + 1 }
        let st1 := { st with entries := mapSet st.entries key entry1 }
        (some entry.value,
          { st1 with stats := { st1.stats with hits := st1.stats.hits + 1 } })

/-- The options record of `set`; `ttl: 0` is falsy in
`options.ttl || this.config.defaultTTL`. -/
structure SetOptions where
  ttl : Option Nat := none
  filePath : Option String := none
  tags : Option (List String) := none
  forceUpdate : Bool := false

/-- The insertion tail of `set`, reached when there is no same-hash
short-circuit: make space if needed, build the fresh entry
(`accessCount = 1`, `timestamp = lastAccessed = now`), store it and
refresh stats. -/
def cacheInsert {V : Type} (sizeFn : V → Nat) (st : CacheState V) (now : Nat)
    (key : String) (value : V) (opts : SetOptions) (hash : String) :
    Bool × CacheState V :=
  let size := sizeFn value
  let st1 := if hasSpace st size then st else makeSpace now st size
  let entry : CacheEntry V :=
    { key := key, value := value, hash := hash, timestamp := now, lastAccessed := now,
      accessCount := 1,
      ttl := match opts.ttl with
        | some t => if t = 0 then st1.config.defaultTTL else t
        | none => st1.config.defaultTTL,
      size := size,
      metadata :=
        { fileSize := size, filePath := opts.filePath.getD "", version := "1.0.0",
          tags := opts.tags.getD [] } }
  (true, updateStats now { st1 with entries := mapSet st1.entries key entry })

/-- Embeds `set`: disabled cache is a no-op returning `false`; a same-hash
non-forced update only refreshes the existing entry's `lastAccessed`;
otherwise insert via `cacheInsert`.  `hashFn` and `sizeFn` stand for the
md5 content hash and `Buffer.byteLength(JSON.stringify(value))`. -/
def cacheSet {V : Type} (hashFn : V → String) (sizeFn : V → Nat)
    (st : CacheState V) (now : Nat) (key : String) (value : V) (opts : SetOptions) :
    Bool × CacheState V :=
  if st.config.enabled = false then (false, st)
  else
    let hash := hashFn value
    match mapGet st.entries key with
    | some existing =>
      if existing.hash == hash && !opts.forceUpdate then
        (true, { st with entries := mapSet st.entries key { existing with lastAccessed := now } })
      else cacheInsert sizeFn st now key value opts hash
    | none => cacheInsert sizeFn st now key value opts hash

/-- JavaScript `String.prototype.trim`. -/
def jsTrim (s : String) : String :=
  String.mk (((s.data.dropWhile isJsWhitespace).reverse.dropWhile isJsWhitespace).reverse)

/-- Substring containment on character lists. -/
def listContainsSub (sub : List Char) : List Char → Bool
  | [] => sub.isPrefixOf []
  | c :: cs => sub.isPrefixOf (c :: cs) || listContainsSub sub cs

/-- JavaScript `String.prototype.includes`. -/
def strIncludes (s sub : String) : Bool :=
  listContainsSub sub.data s.data

/-- Consume an exact literal (regex fragment with no metacharacters). -/
def matchLit (lit : String) (l : List Char) : Option (List Char) :=
  if lit.data.isPrefixOf l then some (l.drop lit.data.length) else none

/-- Embeds `(lit\s+)?`: both continuations of an optional `lit` followed by one
or more whitespace characters (regex backtracking). -/
def afterOptKw (lit : String) (l : List Char) : List (List Char) :=
  match matchLit lit l with
  | some r =>
    match skipWs1 r with
    | some r2 => [r2, l]
    | none => [l]
  | none => [l]

/-- A `\w` word character, `[A-Za-z0-9_]`. -/
def isWordChar (c : Char) : Bool :=
  c.isAlphanum || c == '_'

/-- Embeds `\w+`, greedily. -/
def takeWord1 (l : List Char) : Option (List Char) :=
  match l with
  | c :: cs => if isWordChar c then some (cs.dropWhile isWordChar) else none
  | [] => none

/-- Block pattern 1: `^\s*(export\s+)?(async\s+)?function\s+`. -/
def matchFunctionDecl (line : String) : Bool :=
  let l := line.data.dropWhile isJsWhitespace
  (afterOptKw "export" l).any (fun r =>
    (afterOptKw "async" r).any (fun r2 =>
      match matchLit "function" r2 with
      | some r3 => (skipWs1 r3).isSome
      | none => false))

/-- Block patterns 2-4: `^\s*(export\s+)?<kw>\s+` for `class`,
`interface` and `type`. -/
def matchKeywordDecl (kw : String) (line : String) : Bool :=
  let l := line.data.dropWhile isJsWhitespace
  (afterOptKw "export" l).any (fun r =>
    match matchLit kw r with
    | some r2 => (skipWs1 r2).isSome
    | none => false)

/-- Embeds `(async\s*)?` before `\(`: both continuations. -/
def afterOptAsyncWs0 (l : List Char) : List (List Char) :=
  match matchLit "async" l with
  | some r => [r.dropWhile isJsWhitespace, l]
  | none => [l]

/-- Block pattern 5: `^\s*(export\s+)?const\s+\w+\s*=\s*(async\s*)?\(`. -/
def matchConstArrow (line : String) : Bool :=
  let l := line.data.dropWhile isJsWhitespace
  (afterOptKw "export" l).any (fun r =>
    match matchLit "const" r with
    | some r2 =>
      match skipWs1 r2 with
      | some r3 =>
        match takeWord1 r3 with
        | some r4 =>
          match r4.dropWhile isJsWhitespace with
          | '=' :: r6 =>
            let r7 := r6.dropWhile isJsWhitespace
            (afterOptAsyncWs0 r7).any (fun r8 =>
              match r8 with
              | '(' :: _ => true
              | _ => false)
          | _ => false
        | none => false
      | none => false
    | none => false)

/-- Embeds `blockPatterns.some(pattern => pattern.test(line))` from
`findContainingBlock`. -/
def blockPatternMatch (line : String) : Bool :=
  matchFunctionDecl line || matchKeywordDecl "class" line ||
    matchKeywordDecl "interface" line || matchKeywordDecl "type" line ||
    matchConstArrow line

/-- The upward `while (blockStart >= 0)` search of `findContainingBlock`,
walking from index `i` down to `0`; `none` when no line matches a block
pattern (the JS loop ending at `blockStart = -1`). -/
def searchBlockStartNat (lines : List String) : Nat → Option Nat
  | 0 =>
    if (lines.getD 0 "") != "" && blockPatternMatch (lines.getD 0 "") then some 0 else none
  | i + 1 =>
    if (lines.getD (i + 1) "") != "" && blockPatternMatch (lines.getD (i + 1) "") then
      some (i + 1)
    else searchBlockStartNat lines i

/-- State of the brace-counting loop of `findContainingBlock`. -/
structure BraceState where
  count : Int
  foundOpen : Bool
  blockEnd : Int
  finished : Bool
deriving Repr

/-- One character of the brace-counting loop (`finished` models the two
`break`s). -/
def braceChar (i : Int) (st : BraceState) (c : Char) : BraceState :=
  if st.finished then st
  else if c = '{' then { st with count := st.count + 1, foundOpen := true }
  else if c = '}' then
    let count := st.count - 1
    if st.foundOpen ∧ count = 0 then
      { st with count := count, blockEnd := i, finished := true }
    else { st with count := count }
  else st

/-- One line of the brace-counting loop (`if (!line) continue`, then the
character scan, then the outer break check). -/
def braceStep (st : BraceState) (p : Nat × String) : BraceState :=
  if st.finished then st
  else if p.2 = "" then st
  else
    let st2 := p.2.data.foldl (braceChar (p.1 : Int)) st
    if st2.foundOpen ∧ st2.count = 0 then { st2 with finished := true } else st2

/-- The downward brace-matching pass of `findContainingBlock`: scan from
`blockStart` to the end of the file; `blockEnd` stays `endLine - 1` when
matching is inconclusive. -/
def findBlockEnd (lines : List String) (blockStart : Nat) (endLine : Int) : Int :=
  ((lines.enum.drop blockStart).foldl braceStep
    { count := 0, foundOpen := false, blockEnd := endLine - 1, finished := false }).blockEnd

/-- JavaScript `Array.prototype.slice(start, end)` with a non-negative
`start` and a possibly negative `end`. -/
def jsSlice (l : List String) (start : Nat) (endI : Int) : List String :=
  let len : Int := (l.length : Int)
  let e : Int := if endI < 0 then max 0 (len + endI) else min endI len
  if (start : Int) ≤ e then (l.take e.toNat).drop start else []

/-- Embeds `${n.toString().padStart(4, ' ')}` -/
def padStart4 (n : Nat) : String :=
  let s := toString n
  String.mk (List.replicate (4 - s.length) ' ') ++ s

/-- The repeated line template
`${(idx + 1).toString().padStart(4, ' ')}: ${text}`. -/
def renderNumberedLine (idx : Nat) (text : String) : String :=
  padStart4 (idx + 1) ++ ": " ++ text

/-- Embeds `SmartContextExpander.findContainingBlock`.  Returns `""` both for
the source's `null` and for an empty slice; callers only test falsiness. -/
def findContainingBlock (lines : List String) (startLine endLine : Int) : String :=
  let start0 : Int := startLine - 1
  let blockStart : Nat :=
    (if start0 < 0 then max 0 (startLine - 10)
     else
       match searchBlockStartNat lines start0.toNat with
       | some i => (i : Int)
       | none => max 0 (startLine - 10)).toNat
  let blockEnd := findBlockEnd lines blockStart endLine
  let blockLines := jsSlice lines blockStart (blockEnd + 1)
  String.intercalate "\n"
    (blockLines.mapIdx (fun idx line => renderNumberedLine (blockStart + idx) line))

/-- The regex list `importantPatterns` of `findHeaderEnd`, as one
predicate over a trimmed line. -/
def isHeaderContentLine (line : String) : Bool :=
  -- `^import\s+`
  (match matchLit "import" line.data with
   | some r => (skipWs1 r).isSome
   | none => false) ||
  -- `^export\s+.*from`
  (match matchLit "export" line.data with
   | some r =>
     match skipWs1 r with
     | some r2 => listContainsSub ("from".data) r2
     | none => false
   | none => false) ||
  -- `^\/\*\*`
  strStartsWith line "/**" ||
  -- `^\/\/`
  strStartsWith line "//" ||
  -- `^export\s+type\s+`
  (match matchLit "export" line.data with
   | some r =>
     match skipWs1 r with
     | some r2 =>
       match matchLit "type" r2 with
       | some r3 => (skipWs1 r3).isSome
       | none => false
     | none => false
   | none => false) ||
  -- `^export\s+interface\s+`
  (match matchLit "export" line.data with
   | some r =>
     match skipWs1 r with
     | some r2 =>
       match matchLit "interface" r2 with
       | some r3 => (skipWs1 r3).isSome
       | none => false
     | none => false
   | none => false) ||
  -- `^type\s+.*=`
  (match matchLit "type" line.data with
   | some r =>
     match skipWs1 r with
     | some r2 => listContainsSub ("=".data) r2
     | none => false
   | none => false) ||
  -- `^interface\s+`
  (match matchLit "interface" line.data with
   | some r => (skipWs1 r).isSome
   | none => false)

/-- The scanning loop of `findHeaderEnd` over at most
`min(lines.length, 30)` lines. -/
def findHeaderEndAux (lines : List String) (limit : Nat) :
    List String → Nat → Nat → Nat
  | [], _, headerEnd => headerEnd
  | line :: rest, i, headerEnd =>
    if limit ≤ i then headerEnd
    else
      let t := jsTrim line
      if t == "" || strStartsWith t "//" || strStartsWith t "/*" || strStartsWith t "*" then
        findHeaderEndAux lines limit rest (i + 1) (i + 1)
      else if isHeaderContentLine t then
        findHeaderEndAux lines limit rest (i + 1) (i + 1)
      else if strIncludes t "function" || strIncludes t "class" || strIncludes t "const" then
        headerEnd
      else findHeaderEndAux lines limit rest (i + 1) headerEnd

/-- Embeds `SmartContextExpander.findHeaderEnd` (`maxHeaderLines = 30`). -/
def findHeaderEnd (lines : List String) : Nat :=
  findHeaderEndAux lines (min lines.length 30) lines 0 0

/-- Embeds `SmartContextExpander.extractFileHeader`; `""` models the source's
`null` (falsy either way at the call site). -/
def extractFileHeader (lines : List String) : String :=
  let headerEnd := findHeaderEnd lines
  if headerEnd = 0 then ""
  else
    String.intercalate "\n"
      ((lines.take headerEnd).mapIdx (fun idx line => renderNumberedLine idx line))

/-- One chunk's context window: indices
`[max(0, startLine - W - 1), min(len - 1, endLine + W - 1)]`. -/
def chunkWindow (len W : Nat) (c : DiffChunk) : List Nat :=
  let s : Int := max 0 (c.startLine - (W : Int) - 1)
  let e : Int := min ((len : Int) - 1) (c.endLine + (W : Int) - 1)
  if s ≤ e then List.range' s.toNat (e - s + 1).toNat else []

/-- The nested `for` loops filling the `contextLines` set. -/
def collectContextLines (len W : Nat) (chunks : List DiffChunk) : List Nat :=
  chunks.foldl (fun acc c => acc ++ chunkWindow len W c) []

/-- First-occurrence deduplication (JavaScript `Set` insertion). -/
def dedupFirstAux (seen : List Nat) : List Nat → List Nat
  | [] => []
  | x :: xs => if x ∈ seen then dedupFirstAux seen xs else x :: dedupFirstAux (x :: seen) xs

/-- Embeds `Array.from(set).sort((a, b) => a - b)`. -/
def sortedUnique (l : List Nat) : List Nat :=
  sortCmp (fun (a b : Nat) => (a : Int) - (b : Int)) (dedupFirstAux [] l)

/-- Embeds `SmartContextExpander.extractContextWindow`, with the window size `W`
(`config.contextWindowSize`) and the parsed chunks passed explicitly. -/
def extractContextWindow (W : Nat) (filePath content : String)
    (chunks : List DiffChunk) : String :=
  if chunks.length = 0 then content
  else
    let lines := splitLines content
    let sorted := sortedUnique (collectContextLines lines.length W chunks)
    let res := sorted.foldl
      (fun (st : List String × Int) (lineNum : Nat) =>
        let acc := if (lineNum : Int) > st.2 + 1 then st.1 ++ ["..."] else st.1
        (acc ++ [renderNumberedLine lineNum (lines.getD lineNum "")], (lineNum : Int)))
      (["文件: " ++ filePath, ""], (-2 : Int))
    String.intercalate "\n" res.1

/-- JavaScript `Set<string>` insertion (first occurrence wins). -/
def jsSetAdd (l : List String) (s : String) : List String :=
  if s ∈ l then l else l ++ [s]

/-- Embeds `SmartContextExpander.extractAffectedBlocks`.  Falls back to
`extractContextWindow` exactly when the collected block set is empty. -/
def extractAffectedBlocks (W : Nat) (filePath content : String)
    (chunks : List DiffChunk) : String :=
  if chunks.length = 0 then content
  else
    let lines := splitLines content
    let blocks := chunks.foldl
      (fun acc c =>
        let blockContent := findContainingBlock lines c.startLine c.endLine
        if blockContent != "" then jsSetAdd acc blockContent else acc) []
    if blocks.length = 0 then extractContextWindow W filePath content chunks
    else
      let headerContent := extractFileHeader lines
      let res := ["文件: " ++ filePath, ""]
      let res := if headerContent != "" then res ++ ["// 文件头部", headerContent, ""] else res
      let res := res ++ ["// 受影响的代码块"]
      let res := blocks.foldl (fun acc b => acc ++ ["", b]) res
      String.intercalate "\n" res

/-- The default-like config used by the concrete cache runs below. -/
def probeConfig : CacheConfig :=
  { enabled := true, maxSize := 100, maxEntries := 1000, defaultTTL := 86400,
    strategy := .lru }

/-- All-zero starting stats. -/
def zeroStats : CacheStats :=
  { hits := 0, misses := 0, hitRate := 0, totalSize := 0, entryCount := 0,
    oldestEntry := 0, newestEntry := 0, topKeys := [], memoryUsage := 0 }

/-- A disabled cache. -/
def disabledCacheState : CacheState String :=
  { config := { probeConfig with enabled := false }, entries := [], stats := zeroStats }

/-- An enabled empty cache. -/
def c6State0 : CacheState String :=
  { config := probeConfig, entries := [], stats := zeroStats }

/-- State after `set("k", "X")` at time 1000 (identity hash, byte size =
string length). -/
def c6State1 : CacheState String :=
  (cacheSet (fun v => v) String.length c6State0 1000 "k" "X" {}).2

/-- State after a second identical `set("k", "X")` at time 2000. -/
def c6State2 : CacheState String :=
  (cacheSet (fun v => v) String.length c6State1 2000 "k" "X" {}).2

/-- The entry stored in `c6State1`. -/
def c6Entry : CacheEntry String :=
  { key := "k", value := "X", hash := "X", timestamp := 1000, lastAccessed := 1000,
    accessCount := 1, ttl := 86400, size := 1,
    metadata := { fileSize := 1, filePath := "", version := "1.0.0", tags := [] } }

/-- A 600000-byte entry, least recently accessed. -/
def c7Entry1 : CacheEntry String :=
  { key := "k1", value := "a", hash := "a", timestamp := 100, lastAccessed := 1,
    accessCount := 1, ttl := 86400, size := 600000,
    metadata := { fileSize := 600000, filePath := "", version := "1.0.0", tags := [] } }

/-- A 600000-byte entry, more recently accessed. -/
def c7Entry2 : CacheEntry String :=
  { key := "k2", value := "b", hash := "b", timestamp := 100, lastAccessed := 2,
    accessCount := 1, ttl := 86400, size := 600000,
    metadata := { fileSize := 600000, filePath := "", version := "1.0.0", tags := [] } }

/-- Config with a 1 MB byte budget. -/
def c7Config : CacheConfig :=
  { enabled := true, maxSize := 1, maxEntries := 1000, defaultTTL := 86400,
    strategy := .lru }

/-- Running stats of `c7State` (consistent with its entries). -/
def c7Stats : CacheStats :=
  { hits := 0, misses := 0, hitRate := 0, totalSize := 1200000, entryCount := 2,
    oldestEntry := 100, newestEntry := 100, topKeys := [], memoryUsage := 0 }

/-- A 1 MB-budget cache holding 1,200,000 cached bytes: the next insert
overflows the byte budget. -/
def c7State : CacheState String :=
  { config := c7Config,
    entries := [("k1", c7Entry1), ("k2", c7Entry2)],
    stats := c7Stats }

theorem splitChar_ne_nil (sep : Char) (l : List Char) : splitChar sep l ≠ [] := by
  induction l with
  | nil => simp [splitChar]
  | cons c cs ih =>
    simp only [splitChar]
    split
    · simp
    · cases h : splitChar sep cs with
      | nil => exact absurd h ih
      | cons a t => simp [h]

theorem splitLines_length_pos (s : String) : 0 < (splitLines s).length := by
  have h := splitChar_ne_nil '\n' s.data
  simp only [splitLines, List.length_map]
  exact List.length_pos.mpr h

theorem analyzeFileChanges_changeRatio (fp c : String) (ds : DiffStats)
    (ft : FileType) (api : Bool) (mt : Nat) :
    (analyzeFileChanges fp c ds ft api mt).changeRatio =
      changeRatioOf (splitLines c).length ds.additions ds.deletions := rfl

theorem analyzeFileChanges_isNewFile (fp c : String) (ds : DiffStats)
    (ft : FileType) (api : Bool) (mt : Nat) :
    (analyzeFileChanges fp c ds ft api mt).isNewFile =
      isNewFileOf (splitLines c).length ds.additions ds.deletions := rfl

theorem analyzeFileChanges_isDeleted (fp c : String) (ds : DiffStats)
    (ft : FileType) (api : Bool) (mt : Nat) :
    (analyzeFileChanges fp c ds ft api mt).isDeleted =
      isDeletedOf ds.additions ds.deletions := rfl

theorem analyzeFileChanges_additions (fp c : String) (ds : DiffStats)
    (ft : FileType) (api : Bool) (mt : Nat) :
    (analyzeFileChanges fp c ds ft api mt).additions = ds.additions := rfl

theorem analyzeFileChanges_deletions (fp c : String) (ds : DiffStats)
    (ft : FileType) (api : Bool) (mt : Nat) :
    (analyzeFileChanges fp c ds ft api mt).deletions = ds.deletions := rfl

theorem analyzeFileChanges_fileSize (fp c : String) (ds : DiffStats)
    (ft : FileType) (api : Bool) (mt : Nat) :
    (analyzeFileChanges fp c ds ft api mt).fileSize = (splitLines c).length := rfl

theorem changeRatioOf_nonneg (f a d : Nat) : 0 ≤ changeRatioOf f a d := by
  unfold changeRatioOf
  split_ifs <;> try norm_num
  positivity

theorem changeRatioOf_of_new (f a d : Nat) (h : isNewFileOf f a d = true) :
    changeRatioOf f a d = 1 := by
  simp [changeRatioOf, h]

theorem changeRatioOf_of_deleted (f a d : Nat) (hn : isNewFileOf f a d = false)
    (h : isDeletedOf a d = true) : changeRatioOf f a d = 1 := by
  simp [changeRatioOf, hn, h]

/-- C1 counterexample: a fully rewritten 2-line file (2 additions,
2 deletions, current content `"a\nb"`) is classified as a modified file
and gets `change_ratio = 2`, contradicting the claimed bound
`change_ratio ≤ 1`. -/
theorem change_ratio_above_one_cex :
    (analyzeFileChanges "a.ts" "a\nb" ⟨2, 2, []⟩ .core false 4000).isNewFile = false ∧
    (analyzeFileChanges "a.ts" "a\nb" ⟨2, 2, []⟩ .core false 4000).isDeleted = false ∧
    (analyzeFileChanges "a.ts" "a\nb" ⟨2, 2, []⟩ .core false 4000).changeRatio = 2 ∧
    ¬ (analyzeFileChanges "a.ts" "a\nb" ⟨2, 2, []⟩ .core false 4000).changeRatio ≤ 1 := by
  have hlen : (splitLines "a\nb").length = 2 := rfl
  have hratio : (analyzeFileChanges "a.ts" "a\nb" ⟨2, 2, []⟩ .core false 4000).changeRatio
      = changeRatioOf 2 2 2 := by
    rw [analyzeFileChanges_changeRatio, hlen]
  have hval : changeRatioOf 2 2 2 = 2 := by
    norm_num [changeRatioOf, isNewFileOf, isDeletedOf]
  refine ⟨rfl, rfl, ?_, ?_⟩
  · rw [hratio, hval]
  · rw [hratio, hval]
    norm_num

/-- C1 (amended): every analysis satisfies `0 ≤ change_ratio`, and in the
new-file and deleted-file cases `change_ratio = 1` (hence `≤ 1` there);
for modified files the ratio can exceed `1`. -/
theorem change_ratio_amended_bounds (fp c : String) (ds : DiffStats)
    (ft : FileType) (api : Bool) (mt : Nat) :
    0 ≤ (analyzeFileChanges fp c ds ft api mt).changeRatio ∧
    ((analyzeFileChanges fp c ds ft api mt).isNewFile = true →
      (analyzeFileChanges fp c ds ft api mt).changeRatio = 1) ∧
    ((analyzeFileChanges fp c ds ft api mt).isDeleted = true →
      (analyzeFileChanges fp c ds ft api mt).changeRatio = 1) := by
  rw [analyzeFileChanges_changeRatio, analyzeFileChanges_isNewFile,
    analyzeFileChanges_isDeleted]
  refine ⟨changeRatioOf_nonneg _ _ _, fun h => changeRatioOf_of_new _ _ _ h, fun h => ?_⟩
  by_cases hn : isNewFileOf (splitLines c).length ds.additions ds.deletions
  · exact changeRatioOf_of_new _ _ _ hn
  · exact changeRatioOf_of_deleted _ _ _ (by simpa using hn) h

/-- Witness for `change_ratio_amended_bounds` at a concrete input. -/
theorem change_ratio_amended_bounds_witness :
    0 ≤ (analyzeFileChanges "a.ts" "x" ⟨0, 3, []⟩ .core false 4000).changeRatio :=
  (change_ratio_amended_bounds "a.ts" "x" ⟨0, 3, []⟩ .core false 4000).1

/-- C9: `is_new ⇒ change_ratio = 1 ∧ deleted_lines = 0` and
`is_deleted ⇒ added_lines = 0`, for every produced analysis. -/
theorem analysis_new_deleted_invariants (fp c : String) (ds : DiffStats)
    (ft : FileType) (api : Bool) (mt : Nat) :
    ((analyzeFileChanges fp c ds ft api mt).isNewFile = true →
      (analyzeFileChanges fp c ds ft api mt).changeRatio = 1 ∧
      (analyzeFileChanges fp c ds ft api mt).deletions = 0) ∧
    ((analyzeFileChanges fp c ds ft api mt).isDeleted = true →
      (analyzeFileChanges fp c ds ft api mt).additions = 0) := by
  rw [analyzeFileChanges_changeRatio, analyzeFileChanges_isNewFile,
    analyzeFileChanges_isDeleted, analyzeFileChanges_additions,
    analyzeFileChanges_deletions]
  constructor
  · intro h
    refine ⟨changeRatioOf_of_new _ _ _ h, ?_⟩
    have := h
    simp only [isNewFileOf, Bool.and_eq_true, beq_iff_eq] at this
    exact this.1
  · intro h
    simp only [isDeletedOf, Bool.and_eq_true, beq_iff_eq] at h
    exact h.1

/-- Witness for `analysis_new_deleted_invariants`: a concrete new file. -/
theorem analysis_new_deleted_invariants_witness :
    (analyzeFileChanges "a.ts" "x\ny" ⟨2, 0, []⟩ .core false 4000).changeRatio = 1 ∧
    (analyzeFileChanges "a.ts" "x\ny" ⟨2, 0, []⟩ .core false 4000).deletions = 0 :=
  (analysis_new_deleted_invariants "a.ts" "x\ny" ⟨2, 0, []⟩ .core false 4000).1 (by decide)

/-- C3: for every modified file (neither new nor deleted) the computed
ratio equals the spec formula
`(added+deleted) / max(file_line_count + max(0, deleted-added), 1)`;
the line count obtained from `content.split('\n')` is always at least 1,
which makes the code's `baseSize > 0` guard and the spec's
`max(…, 1)` coincide. -/
theorem modified_change_ratio_formula (fp c : String) (ds : DiffStats)
    (ft : FileType) (api : Bool) (mt : Nat)
    (h1 : (analyzeFileChanges fp c ds ft api mt).isNewFile = false)
    (h2 : (analyzeFileChanges fp c ds ft api mt).isDeleted = false) :
    (analyzeFileChanges fp c ds ft api mt).changeRatio =
      specModifiedChangeRatio (analyzeFileChanges fp c ds ft api mt).fileSize
        ds.additions ds.deletions := by
  rw [analyzeFileChanges_changeRatio, analyzeFileChanges_fileSize]
  rw [analyzeFileChanges_isNewFile] at h1
  rw [analyzeFileChanges_isDeleted] at h2
  set f := (splitLines c).length with hf
  set a := ds.additions
  set d := ds.deletions
  have hfpos : 0 < f := splitLines_length_pos c
  have hbase : 0 < f + (d - a) := Nat.lt_of_lt_of_le hfpos (Nat.le_add_right _ _)
  have hcast : ((f + (d - a) : Nat) : ℚ) = max ((f : ℚ) + max ((d : ℚ) - (a : ℚ)) 0) 1 := by
    have hsub : ((d - a : Nat) : ℚ) = max ((d : ℚ) - (a : ℚ)) 0 := by
      rcases Nat.le_total a d with hle | hle
      · rw [Nat.cast_sub hle, max_eq_left (by
          have : (a : ℚ) ≤ (d : ℚ) := by exact_mod_cast hle
          linarith)]
      · rw [Nat.sub_eq_zero_of_le hle, max_eq_right (by
          have : (d : ℚ) ≤ (a : ℚ) := by exact_mod_cast hle
          linarith), Nat.cast_zero]
    have hone : (1 : ℚ) ≤ (f : ℚ) + max ((d : ℚ) - (a : ℚ)) 0 := by
      have h1f : (1 : ℚ) ≤ (f : ℚ) := by exact_mod_cast hfpos
      have h0 : (0 : ℚ) ≤ max ((d : ℚ) - (a : ℚ)) 0 := le_max_right _ _
      linarith
    rw [max_eq_left hone]
    push_cast [hsub]
    ring
  unfold changeRatioOf specModifiedChangeRatio
  rw [h1, h2]
  simp only [Bool.false_eq_true, if_false, if_pos hbase, hcast]
  push_cast
  ring_nf

/-- Witness for `modified_change_ratio_formula`: a file with 4 lines,
3 additions and 1 deletion. -/
theorem modified_change_ratio_formula_witness :
    (analyzeFileChanges "a.ts" "1\n2\n3\n4" ⟨3, 1, []⟩ .core false 4000).changeRatio =
      specModifiedChangeRatio
        (analyzeFileChanges "a.ts" "1\n2\n3\n4" ⟨3, 1, []⟩ .core false 4000).fileSize 3 1 :=
  modified_change_ratio_formula "a.ts" "1\n2\n3\n4" ⟨3, 1, []⟩ .core false 4000
    (by decide) (by decide)

/-- C2: `selectOptimalStrategy` implements the spec's ordered,
first-match-wins decision table on every input. -/
theorem select_strategy_matches_spec_table (a : ChangeAnalysis) :
    selectOptimalStrategy a = specStrategyTable a := by
  unfold selectOptimalStrategy specStrategyTable
  cases hd : a.isDeleted
  · cases hn : a.isNewFile
    · simp [hd, hn]
    · by_cases h100 : a.fileSize < 100 <;> simp [hd, hn, h100]
  · simp [hd]

/-- C8: with every field but `change_ratio` fixed, a larger ratio never
selects a smaller-budget strategy
(`DiffOnly < ContextWindow < AffectedBlocks < SmartSummary < FullFile`). -/
theorem strategy_monotone_in_change_ratio (a : ChangeAnalysis) (r1 r2 : ℚ)
    (h : r1 < r2) :
    (selectOptimalStrategy { a with changeRatio := r1 }).budgetRank ≤
      (selectOptimalStrategy { a with changeRatio := r2 }).budgetRank := by
  unfold selectOptimalStrategy
  dsimp only
  cases hd : a.isDeleted
  · cases hn : a.isNewFile
    · by_cases h20 : a.fileSize < 20
      · simp [hd, hn, h20]
      · by_cases hcfg : a.fileType = .config ∧ a.fileSize < 50
        · simp [hd, hn, h20, hcfg]
        · simp only [hd, hn, h20, hcfg, Bool.false_eq_true, false_and, if_false, ite_false]
          split_ifs <;> simp only [ContextStrategy.budgetRank] <;>
            first
            | rfl
            | omega
            | linarith
    · simp [hd, hn]
  · simp [hd]

/-- Witness for `strategy_monotone_in_change_ratio` at a concrete analysis
and ratios `1/20 < 1/2`. -/
theorem strategy_monotone_in_change_ratio_witness :
    (selectOptimalStrategy (monotonicityProbe (1/20))).budgetRank ≤
      (selectOptimalStrategy (monotonicityProbe (1/2))).budgetRank := by
  have := strategy_monotone_in_change_ratio (monotonicityProbe 0) (1/20) (1/2) (by norm_num)
  simpa [monotonicityProbe] using this

theorem startsWith_single_iff (line : String) (c : Char) :
    strStartsWith line (String.mk [c]) = true ↔ ∃ rest, line.data = c :: rest := by
  unfold strStartsWith
  cases hd : line.data with
  | nil => simp [List.isPrefixOf]
  | cons x xs =>
    simp only [List.isPrefixOf, List.isPrefixOf_nil_left, Bool.and_true, beq_iff_eq,
      List.cons.injEq]
    constructor
    · intro h
      exact ⟨xs, h.symm, rfl⟩
    · rintro ⟨rest, h1, h2⟩
      exact h1.symm

theorem startsWith_single_ne (line : String) (c d : Char) (hne : d ≠ c)
    (h : strStartsWith line (String.mk [c]) = true) :
    strStartsWith line (String.mk [d]) = false := by
  obtain ⟨rest, hr⟩ := (startsWith_single_iff line c).mp h
  cases he : strStartsWith line (String.mk [d]) with
  | false => rfl
  | true =>
    obtain ⟨rest2, hr2⟩ := (startsWith_single_iff line d).mp he
    rw [hr] at hr2
    exact absurd (List.head_eq_of_cons_eq hr2).symm hne

/-- C4 counterexample: on the diff
`"@@ -1,2 +1,2 @@\n-old\n+new"` the deletion line is seen first, yet the
following `+` line overwrites the region kind with `addition`; the
claimed kind for this region is `modification`. -/
theorem plus_line_overwrites_kind_cex :
    parseDiffChunks "@@ -1,2 +1,2 @@\n-old\n+new" =
      [⟨1, 2, 2, .addition⟩] ∧ ChunkType.addition ≠ ChunkType.modification :=
  ⟨rfl, by decide⟩

/-- C4 (amended): within a region, a `+` line advances the new-file line
counter and sets the region kind to `addition` unconditionally (it
overwrites an earlier `deletion` marking rather than producing
`modification`); a `-` line sets the kind to `modification` exactly when
the current kind is `addition` (not merely when additions were seen
earlier) and to `deletion` otherwise, without advancing the counter; a
context line (leading space or empty) advances the counter without
changing the kind; file-header lines (`diff `/`index `/`---`/`+++`) leave
the state unchanged. -/
theorem diff_line_step_behavior (chunks : List DiffChunk) (cur : Option (Nat × ChunkType))
    (ln : Nat) (s : Nat) (t : ChunkType) (line : String)
    (hcur : cur = some (s, t)) (hhdr : parseHunkHeader line = none) :
    ((strStartsWith line "diff " || strStartsWith line "index " ||
        strStartsWith line "---" || strStartsWith line "+++") = true →
      processDiffLine ⟨chunks, cur, ln⟩ line = ⟨chunks, cur, ln⟩) ∧
    ((strStartsWith line "diff " || strStartsWith line "index " ||
        strStartsWith line "---" || strStartsWith line "+++") = false →
      (strStartsWith line "+" = true →
        processDiffLine ⟨chunks, cur, ln⟩ line = ⟨chunks, some (s, .addition), ln + 1⟩) ∧
      (strStartsWith line "-" = true →
        processDiffLine ⟨chunks, cur, ln⟩ line =
          ⟨chunks, some (s, if t = .addition then .modification else .deletion), ln⟩) ∧
      (strStartsWith line "+" = false → strStartsWith line "-" = false →
        (strStartsWith line " " || line == "") = true →
        processDiffLine ⟨chunks, cur, ln⟩ line = ⟨chunks, cur, ln + 1⟩)) := by
  subst hcur
  constructor
  · intro hskip
    unfold processDiffLine
    rw [hhdr]
    simp [hskip]
  · intro hskip
    simp only [Bool.or_eq_false_iff] at hskip
    obtain ⟨⟨⟨hdiff, hindex⟩, hdash3⟩, hplus3⟩ := hskip
    refine ⟨?_, ?_, ?_⟩
    · intro hplus
      unfold processDiffLine
      rw [hhdr]
      simp [hdiff, hindex, hdash3, hplus3, hplus]
    · intro hdash
      have hplus : strStartsWith line "+" = false :=
        startsWith_single_ne line '-' '+' (by decide) hdash
      unfold processDiffLine
      rw [hhdr]
      simp [hdiff, hindex, hdash3, hplus3, hplus, hdash]
    · intro hplus hdash hctx
      unfold processDiffLine
      rw [hhdr]
      simp [hdiff, hindex, hdash3, hplus3, hplus, hdash, hctx]

/-- Witness for `diff_line_step_behavior`: concrete check of the `+`
branch on the line `"+new"` with a deletion-marked open region. -/
theorem diff_line_step_behavior_witness :
    processDiffLine ⟨[], some (5, .deletion), 7⟩ "+new" = ⟨[], some (5, .addition), 8⟩ :=
  ((diff_line_step_behavior [] (some (5, .deletion)) 7 5 .deletion "+new" rfl rfl).2
    (by decide)).1 (by decide)

/-- C10: with `enabled = false`, `get` returns `null` and `set` returns
`false`, and neither touches the stored entries or the stats. -/
theorem disabled_cache_is_noop {V : Type} (hashFn : V → String) (sizeFn : V → Nat)
    (st : CacheState V) (now : Nat) (key : String) (value : V) (opts : SetOptions)
    (hdis : st.config.enabled = false) :
    cacheGet st now key = (none, st) ∧
    cacheSet hashFn sizeFn st now key value opts = (false, st) := by
  unfold cacheGet cacheSet
  rw [hdis]
  simp

/-- Witness for `disabled_cache_is_noop` on a concrete disabled cache. -/
theorem disabled_cache_is_noop_witness :
    cacheGet disabledCacheState 42 "k" = (none, disabledCacheState) ∧
    cacheSet (fun v => v) String.length disabledCacheState 42 "k" "v" {} =
      (false, disabledCacheState) :=
  disabled_cache_is_noop (fun v => v) String.length disabledCacheState 42 "k" "v" {} rfl

/-- C6 counterexample: two identical `set(k, "X")` calls.  After the
second call the entry's `access_count` is still `1` (the claim says it
increments to `2`); `created_at` is unchanged and `last_accessed` is
refreshed, as claimed. -/
theorem second_identical_set_access_count_cex :
    (mapGet c6State2.entries "k").map (fun e => e.accessCount) = some 1 ∧
    (mapGet c6State2.entries "k").map (fun e => e.timestamp) = some 1000 ∧
    (mapGet c6State2.entries "k").map (fun e => e.lastAccessed) = some 2000 ∧
    (1 : Nat) ≠ 2 :=
  ⟨rfl, rfl, rfl, by decide⟩

/-- C6 (amended): a second `set` under the same key with an identical
content hash and no forced update returns `true` and only rewrites the
stored entry's `last_accessed` to the current time: `access_count` and
`created_at` (and every other field, every other entry, and the stats)
are unchanged, and no eviction runs. -/
theorem same_hash_set_only_refreshes_last_accessed {V : Type} (hashFn : V → String)
    (sizeFn : V → Nat) (st : CacheState V) (now : Nat) (key : String) (value : V)
    (opts : SetOptions) (e : CacheEntry V)
    (hen : st.config.enabled = true)
    (hfind : mapGet st.entries key = some e)
    (hhash : e.hash = hashFn value)
    (hforce : opts.forceUpdate = false) :
    cacheSet hashFn sizeFn st now key value opts =
      (true, { st with entries := mapSet st.entries key { e with lastAccessed := now } }) := by
  unfold cacheSet
  rw [hen]
  simp [hfind, hhash, hforce]

/-- Witness for `same_hash_set_only_refreshes_last_accessed`: the
concrete second `set` of `c6State1`. -/
theorem same_hash_set_only_refreshes_last_accessed_witness :
    cacheSet (fun v => v) String.length c6State1 2000 "k" "X" {} =
      (true, { c6State1 with
        entries := mapSet c6State1.entries "k" { c6Entry with lastAccessed := 2000 } }) :=
  same_hash_set_only_refreshes_last_accessed (fun v => v) String.length c6State1 2000
    "k" "X" {} c6Entry rfl rfl rfl rfl

theorem sumSizes_nil {V : Type} : sumSizes ([] : List (String × CacheEntry V)) = 0 := rfl

theorem sumSizes_cons {V : Type} (p : String × CacheEntry V)
    (l : List (String × CacheEntry V)) :
    sumSizes (p :: l) = p.2.size + sumSizes l := by
  simp [sumSizes]

theorem insertCmp_perm {α : Type} (cmp : α → α → Int) (a : α) (l : List α) :
    (insertCmp cmp a l).Perm (a :: l) := by
  induction l with
  | nil => simp [insertCmp]
  | cons b bs ih =>
    unfold insertCmp
    split_ifs
    · exact List.Perm.refl _
    · exact (ih.cons b).trans (List.Perm.swap a b bs)

theorem sortCmp_perm {α : Type} (cmp : α → α → Int) (l : List α) :
    (sortCmp cmp l).Perm l := by
  induction l with
  | nil => simp [sortCmp]
  | cons a as ih =>
    unfold sortCmp
    exact (insertCmp_perm cmp a (sortCmp cmp as)).trans (ih.cons a)

theorem evictList_sublist {V : Type} (target : ℚ) (r : ℚ)
    (S : List (String × CacheEntry V)) : (evictList target r S).Sublist S := by
  induction S generalizing r with
  | nil => simp [evictList]
  | cons p rest ih =>
    unfold evictList
    split_ifs
    · exact List.nil_sublist _
    · exact (ih _).cons₂ p

theorem evictList_remaining_le {V : Type} (target : ℚ) (r : ℚ)
    (S : List (String × CacheEntry V)) (h : (sumSizes S : ℚ) ≤ r) :
    r - (sumSizes (evictList target r S) : ℚ) ≤ max target (r - (sumSizes S : ℚ)) := by
  induction S generalizing r with
  | nil => simp [evictList, sumSizes]
  | cons p rest ih =>
    rw [sumSizes_cons] at h
    push_cast at h
    unfold evictList
    split_ifs with hle
    · simp only [sumSizes_nil, Nat.cast_zero, sub_zero]
      exact le_max_of_le_left hle
    · rw [sumSizes_cons, sumSizes_cons]
      push_cast
      have hrest : (sumSizes rest : ℚ) ≤ r - (p.2.size : ℚ) := by linarith
      have hih := ih (r - (p.2.size : ℚ)) hrest
      have hmax : max target (r - (p.2.size : ℚ) - (sumSizes rest : ℚ))
          = max target (r - ((p.2.size : ℚ) + (sumSizes rest : ℚ))) := by
        ring_nf
      calc r - ((p.2.size : ℚ) + (sumSizes (evictList target (r - (p.2.size : ℚ)) rest) : ℚ))
          = (r - (p.2.size : ℚ)) - (sumSizes (evictList target (r - (p.2.size : ℚ)) rest) : ℚ) := by
            ring
        _ ≤ max target (r - (p.2.size : ℚ) - (sumSizes rest : ℚ)) := hih
        _ = max target (r - ((p.2.size : ℚ) + (sumSizes rest : ℚ))) := hmax

theorem mapDelete_sublist {V : Type} (m : List (String × CacheEntry V)) (k : String) :
    (mapDelete m k).Sublist m := by
  induction m with
  | nil => simp [mapDelete]
  | cons p rest ih =>
    unfold mapDelete
    split_ifs
    · exact List.sublist_cons_self p rest
    · exact ih.cons₂ p

theorem mapDelete_mem_of_ne {V : Type} (m : List (String × CacheEntry V)) (k : String)
    (q : String × CacheEntry V) (hq : q ∈ m) (hne : q.1 ≠ k) : q ∈ mapDelete m k := by
  induction m with
  | nil => simp at hq
  | cons p rest ih =>
    unfold mapDelete
    rcases List.mem_cons.mp hq with h | h
    · subst h
      split_ifs with hpk
      · exact absurd hpk hne
      · exact List.mem_cons_self _ _
    · split_ifs with hpk
      · exact h
      · exact List.mem_cons_of_mem _ (ih h)

theorem mapDelete_sum_of_mem {V : Type} (m : List (String × CacheEntry V)) (k : String)
    (e : CacheEntry V) (hmem : (k, e) ∈ m) (hnd : (m.map Prod.fst).Nodup) :
    (sumSizes (mapDelete m k) : ℚ) = (sumSizes m : ℚ) - (e.size : ℚ) := by
  induction m with
  | nil => simp at hmem
  | cons p rest ih =>
    rw [List.map_cons, List.nodup_cons] at hnd
    unfold mapDelete
    rcases List.mem_cons.mp hmem with h | h
    · have hp1 : p.1 = k := by rw [← h]
      have hp2 : p.2 = e := by rw [← h]
      rw [if_pos hp1, sumSizes_cons, hp2]
      push_cast
      ring
    · have hkmem : k ∈ rest.map Prod.fst := by
        exact List.mem_map_of_mem Prod.fst h
      split_ifs with hpk
      · exact absurd (hpk ▸ hkmem) hnd.1
      · rw [sumSizes_cons, sumSizes_cons]
        push_cast
        rw [ih h hnd.2]
        ring

theorem foldl_mapDelete_sum {V : Type} :
    ∀ (P entries : List (String × CacheEntry V)),
      (entries.map Prod.fst).Nodup →
      (P.map Prod.fst).Nodup →
      (∀ p ∈ P, p ∈ entries) →
      (sumSizes (P.foldl (fun es p => mapDelete es p.1) entries) : ℚ)
        = (sumSizes entries : ℚ) - (sumSizes P : ℚ) := by
  intro P
  induction P with
  | nil =>
    intro entries h1 h2 h3
    simp [sumSizes]
  | cons p P ih =>
    intro entries hN hP hmem
    rw [List.map_cons, List.nodup_cons] at hP
    have hpmem : p ∈ entries := hmem p (List.mem_cons_self _ _)
    have hdel : (sumSizes (mapDelete entries p.1) : ℚ)
        = (sumSizes entries : ℚ) - (p.2.size : ℚ) := by
      have hpe : (p.1, p.2) ∈ entries := by simpa using hpmem
      exact mapDelete_sum_of_mem entries p.1 p.2 hpe hN
    have hN2 : ((mapDelete entries p.1).map Prod.fst).Nodup :=
      ((mapDelete_sublist entries p.1).map Prod.fst).nodup hN
    have hmem2 : ∀ q ∈ P, q ∈ mapDelete entries p.1 := by
      intro q hq
      have hqe := hmem q (List.mem_cons_of_mem _ hq)
      have hqne : q.1 ≠ p.1 := by
        intro hcontra
        exact hP.1 (hcontra ▸ List.mem_map_of_mem Prod.fst hq)
      exact mapDelete_mem_of_ne _ _ q hqe hqne
    calc (sumSizes ((p :: P).foldl (fun es q => mapDelete es q.1) entries) : ℚ)
        = (sumSizes (P.foldl (fun es q => mapDelete es q.1) (mapDelete entries p.1)) : ℚ) := by
          rw [List.foldl_cons]
      _ = (sumSizes (mapDelete entries p.1) : ℚ) - (sumSizes P : ℚ) := ih _ hN2 hP.2 hmem2
      _ = (sumSizes entries : ℚ) - (p.2.size : ℚ) - (sumSizes P : ℚ) := by rw [hdel]
      _ = (sumSizes entries : ℚ) - (sumSizes (p :: P) : ℚ) := by
          rw [sumSizes_cons]; push_cast; ring

/-- C7 (amended): when an insert overflows the budget, `makeSpace` sorts
the entries by the configured policy comparator (`lru`: oldest last
access first; `lfu`: lowest access count first; `ttl`: smallest
`timestamp + ttl` first) and evicts until the REMAINING cached size is at
most `0.8 × byte budget` — so after eviction the total size is
`≤ 0.8 × budget` (hence `≤ budget`), not `≥ 0.8 × budget` as claimed;
the entry-count budget triggers no eviction of its own. -/
theorem makeSpace_respects_target {V : Type} (now : Nat) (st : CacheState V)
    (reqSize : Nat)
    (hnd : (st.entries.map Prod.fst).Nodup)
    (hsum : st.stats.totalSize = sumSizes st.entries) :
    (((makeSpace now st reqSize).stats.totalSize : ℚ)
        ≤ ((st.config.maxSize * 1024 * 1024 : Nat) : ℚ) * (8 / 10)) ∧
    (∀ a b : CacheEntry V,
      (compareEntriesForEviction .lru a b < 0 ↔ a.lastAccessed < b.lastAccessed) ∧
      (compareEntriesForEviction .lfu a b < 0 ↔ a.accessCount < b.accessCount) ∧
      (compareEntriesForEviction .ttl a b < 0 ↔
        a.timestamp + a.ttl < b.timestamp + b.ttl)) := by
  constructor
  · have hms : (makeSpace now st reqSize).stats.totalSize
        = sumSizes ((evictList (((st.config.maxSize * 1024 * 1024 : Nat) : ℚ) * (8 / 10))
            ((st.stats.totalSize : Nat) : ℚ)
            (sortCmp (fun a b => compareEntriesForEviction st.config.strategy a.2 b.2)
              st.entries)).foldl
            (fun es p => mapDelete es p.1) st.entries) := rfl
    rw [hms]
    have hperm :
        (sortCmp (fun a b => compareEntriesForEviction st.config.strategy a.2 b.2)
          st.entries).Perm st.entries := sortCmp_perm _ _
    have hsumS : sumSizes (sortCmp
          (fun a b => compareEntriesForEviction st.config.strategy a.2 b.2) st.entries)
        = sumSizes st.entries := by
      unfold sumSizes
      exact (hperm.map _).sum_eq
    have hSnd : ((sortCmp (fun a b => compareEntriesForEviction st.config.strategy a.2 b.2)
        st.entries).map Prod.fst).Nodup := by
      exact ((hperm.map Prod.fst).nodup_iff).mpr hnd
    have hsub := evictList_sublist
      (((st.config.maxSize * 1024 * 1024 : Nat) : ℚ) * (8 / 10))
      ((st.stats.totalSize : Nat) : ℚ)
      (sortCmp (fun a b => compareEntriesForEviction st.config.strategy a.2 b.2) st.entries)
    have hPnd := (hsub.map Prod.fst).nodup hSnd
    have hmemP : ∀ p ∈ evictList (((st.config.maxSize * 1024 * 1024 : Nat) : ℚ) * (8 / 10))
        ((st.stats.totalSize : Nat) : ℚ)
        (sortCmp (fun a b => compareEntriesForEviction st.config.strategy a.2 b.2)
          st.entries), p ∈ st.entries := by
      intro p hp
      exact hperm.subset (hsub.subset hp)
    rw [foldl_mapDelete_sum _ _ hnd hPnd hmemP]
    have hbound := evictList_remaining_le
      (((st.config.maxSize * 1024 * 1024 : Nat) : ℚ) * (8 / 10))
      ((st.stats.totalSize : Nat) : ℚ)
      (sortCmp (fun a b => compareEntriesForEviction st.config.strategy a.2 b.2) st.entries)
      (by rw [hsumS, ← hsum])
    rw [hsumS, ← hsum, sub_self] at hbound
    have htnn : (0 : ℚ) ≤ ((st.config.maxSize * 1024 * 1024 : Nat) : ℚ) * (8 / 10) := by
      positivity
    rw [max_eq_left htnn] at hbound
    rw [hsum] at hbound ⊢
    linarith
  · intro a b
    refine ⟨?_, ?_, ?_⟩ <;> (simp only [compareEntriesForEviction]; omega)

/-- Witness for `makeSpace_respects_target` on the concrete overflowing
cache `c7State`. -/
theorem makeSpace_respects_target_witness :
    ((makeSpace 5000 c7State 3).stats.totalSize : ℚ)
      ≤ ((c7State.config.maxSize * 1024 * 1024 : Nat) : ℚ) * (8 / 10) :=
  (makeSpace_respects_target 5000 c7State 3 (by decide) rfl).1

/-- C7 counterexample: inserting a 3-byte value into the overflowing
1 MB-budget cache `c7State` evicts down to 600000 bytes and ends with
600003 cached bytes, strictly below `0.8 × budget = 838860.8`; the claim
that the post-overflow size is `≥ 0.8 × budget` fails. -/
theorem eviction_budget_cex :
    (cacheSet (fun v => v) String.length c7State 5000 "k3" "xyz" {}).1 = true ∧
    (cacheSet (fun v => v) String.length c7State 5000 "k3" "xyz" {}).2.stats.totalSize
      = 600003 ∧
    ¬ (((c7State.config.maxSize * 1024 * 1024 : Nat) : ℚ) * (8 / 10)
        ≤ (((cacheSet (fun v => v) String.length c7State 5000 "k3" "xyz" {}
            ).2.stats.totalSize : Nat) : ℚ)) := by
  have hev : evictList (((c7State.config.maxSize * 1024 * 1024 : Nat) : ℚ) * (8 / 10))
      ((c7State.stats.totalSize : Nat) : ℚ) [("k1", c7Entry1), ("k2", c7Entry2)]
      = [("k1", c7Entry1)] := by
    unfold evictList
    rw [if_neg (by norm_num [c7State, c7Config, c7Stats])]
    unfold evictList
    rw [if_pos (by norm_num [c7State, c7Config, c7Stats, c7Entry1])]
  have hmsp : makeSpace 5000 c7State 3
      = updateStats 5000 { c7State with
          entries := ((evictList
            (((c7State.config.maxSize * 1024 * 1024 : Nat) : ℚ) * (8 / 10))
            ((c7State.stats.totalSize : Nat) : ℚ)
            [("k1", c7Entry1), ("k2", c7Entry2)]).foldl
            (fun es p => mapDelete es p.1) c7State.entries) } := rfl
  rw [hev] at hmsp
  have hmsp2 : makeSpace 5000 c7State 3
      = updateStats 5000 { c7State with entries := [("k2", c7Entry2)] } := by
    rw [hmsp]
    rfl
  have hset : cacheSet (fun v => v) String.length c7State 5000 "k3" "xyz" {}
      = cacheInsert String.length c7State 5000 "k3" "xyz" {} "xyz" := rfl
  have hins : cacheInsert String.length c7State 5000 "k3" "xyz" {} "xyz"
      = (true, updateStats 5000 { makeSpace 5000 c7State 3 with
          entries := mapSet (makeSpace 5000 c7State 3).entries "k3"
            { key := "k3", value := "xyz", hash := "xyz", timestamp := 5000,
              lastAccessed := 5000, accessCount := 1,
              ttl := (makeSpace 5000 c7State 3).config.defaultTTL, size := 3,
              metadata := { fileSize := 3, filePath := "", version := "1.0.0", tags := [] } } }) := rfl
  rw [hmsp2] at hins
  rw [hset, hins]
  refine ⟨rfl, rfl, ?_⟩
  have hne : ¬ (("k2" : String) = "k3") := by decide
  norm_num [c7State, c7Config, c7Stats, c7Entry2, updateStats, mapSet, sumSizes,
    updateTopKeys, sortCmp, insertCmp, compareEntriesForEviction, hne]

theorem collectBlocks_nil (lines : List String) (chunks : List DiffChunk)
    (hall : ∀ c ∈ chunks, findContainingBlock lines c.startLine c.endLine = "") :
    ∀ acc : List String,
      chunks.foldl
        (fun acc c =>
          let blockContent := findContainingBlock lines c.startLine c.endLine
          if blockContent != "" then jsSetAdd acc blockContent else acc) acc = acc := by
  induction chunks with
  | nil => intro acc; rfl
  | cons c rest ih =>
    intro acc
    rw [List.foldl_cons]
    have hc := hall c (List.mem_cons_self _ _)
    simp only [hc]
    rw [ih (fun d hd => hall d (List.mem_cons_of_mem _ hd))]
    simp

/-- C5 counterexample: for the 3-line file `"aaa\nbbb\nccc"` with a
changed region at line 2, no enclosing declaration is found (the upward
search returns nothing) and brace matching never concludes, yet
`findContainingBlock` still emits a fixed-lookback block and
`extractAffectedBlocks` returns it instead of the `ContextWindow`
extraction. -/
theorem affected_blocks_no_decl_no_fallback_cex :
    searchBlockStartNat (splitLines "aaa\nbbb\nccc") 1 = none ∧
    findContainingBlock (splitLines "aaa\nbbb\nccc") 2 2 ≠ "" ∧
    extractAffectedBlocks 20 "f.ts" "aaa\nbbb\nccc" [⟨2, 2, 1, .modification⟩] ≠
      extractContextWindow 20 "f.ts" "aaa\nbbb\nccc" [⟨2, 2, 1, .modification⟩] :=
  ⟨rfl, by decide, by decide⟩

/-- C5 (amended): `extractAffectedBlocks` falls back to the
`ContextWindow` extraction exactly when every region yields an empty
block string — when no enclosing declaration matches, the code instead
widens to a fixed 10-line lookback and still emits a block, and when
brace matching is inconclusive the block simply ends at `endLine - 1`.
In particular, whenever all per-region blocks are empty the result
coincides with `extractContextWindow` on the same input. -/
theorem affected_blocks_fallback_iff_no_blocks (W : Nat) (fp content : String)
    (chunks : List DiffChunk)
    (hall : ∀ c ∈ chunks,
      findContainingBlock (splitLines content) c.startLine c.endLine = "") :
    extractAffectedBlocks W fp content chunks
      = extractContextWindow W fp content chunks := by
  unfold extractAffectedBlocks
  by_cases hc : chunks.length = 0
  · rw [if_pos hc]
    unfold extractContextWindow
    rw [if_pos hc]
  · rw [if_neg hc]
    simp only [collectBlocks_nil (splitLines content) chunks hall, List.length_nil,
      if_pos rfl, if_true]

/-- Witness for `affected_blocks_fallback_iff_no_blocks`: a degenerate
region `(startLine 2, endLine 1)` below a brace-less declaration yields
an empty slice, so the extractor degrades to the context window. -/
theorem affected_blocks_fallback_iff_no_blocks_witness :
    extractAffectedBlocks 20 "f.ts" "x\nfunction f" [⟨2, 1, 0, .modification⟩]
      = extractContextWindow 20 "f.ts" "x\nfunction f" [⟨2, 1, 0, .modification⟩] :=
  affected_blocks_fallback_iff_no_blocks 20 "f.ts" "x\nfunction f"
    [⟨2, 1, 0, .modification⟩] (by decide)

end AiCr
